import Mathlib

/-!
Verification of `sync_canton_validators_to_attio.py`.

The script is a linear pipeline: fetch all validator licenses from the
Canton Scan API (following pagination), filter to recently active
validators, deduplicate by validator id, and upsert each survivor into
Attio with a bounded retry policy.

The embedding below mirrors the source file:
* JSON records become structures of `Option` fields; Python truthiness
  (`if not x`) on optional strings is `strFalsy`.
* The HTTP layer is an oracle passed in as a function: the Canton server
  is `scan : Option String → FetchResp` (cursor to response), the Attio
  server is `attio : String → Nat → AttioResp` (validator id and attempt
  number to response).  Timestamp parsing
  (`datetime.fromisoformat(s.replace("Z", "+00:00"))`) is the oracle
  `parseTs : String → ParseRes`, timestamps measured in microseconds;
  `ParseRes` distinguishes a `ValueError` from an offset-aware and an
  offset-naive parse, because a naive datetime makes the filter's
  cutoff comparison raise an uncaught `TypeError`.
* The unbounded `while True` pagination loop takes fuel; a run whose
  fetch would not terminate is `none`.
* `sys.exit(1)` inside `get_attio_headers`, an unexpected exception in a
  worker, and the normal returns become the `WOutcome` type.
-/

/-- Python truthiness of an optional string: `None` and `""` are falsy. -/
def strFalsy : Option String → Bool
  | none => true
  | some s => s = ""

/-- The `payload.metadata` object of a license record. -/
structure Metadata where
  contactPoint : Option String
deriving DecidableEq

/-- The `payload` object of a license record. -/
structure Payload where
  validator : Option String
  lastActiveAt : Option String
  sponsor : Option String
  metadata : Option Metadata
deriving DecidableEq

/-- A validator license record as returned by Canton Scan. -/
structure License where
  payload : Option Payload
deriving DecidableEq

/-- Model of `lic.get("payload") or \x7b\x7d`: a missing payload acts as an empty dict. -/
def payloadOf (lic : License) : Payload :=
  lic.payload.getD ⟨none, none, none, none⟩

/-- The truthy validator id of a record: `payload.get("validator")`
followed by the script's `if not vid` checks; `none` when the field is
missing or the empty string. -/
def truthyVid (lic : License) : Option String :=
  match (payloadOf lic).validator with
  | none => none
  | some s => if s = "" then none else some s

/-- One JSON page of `/v0/admin/validator/licenses`. -/
structure Page where
  validator_licenses : Option (List License)
  next_page_token : Option String
deriving DecidableEq

/-- Model of `data.get("validator_licenses") or []`. -/
def pageRecs (p : Page) : List License :=
  p.validator_licenses.getD []

/-- Canton Scan's response to one page request: either a page, or the
combination of `raise_for_status` / `response.json()` raising (non-success
status or malformed body). -/
inductive FetchResp where
  | ok (page : Page)
  | err
deriving DecidableEq

/-- How a fetch run can fail: an HTTP/parse error raised mid-fetch, or
the model's fuel running out (the Python loop would not have
terminated). -/
inductive FetchErr where
  | httpError
  | fuelOut
deriving DecidableEq

instance {ε α : Type} [DecidableEq ε] [DecidableEq α] : DecidableEq (Except ε α) := fun x y =>
  match x, y with
  | .ok a, .ok b =>
    if h : a = b then .isTrue (by rw [h]) else .isFalse (fun hh => h (Except.ok.inj hh))
  | .error a, .error b =>
    if h : a = b then .isTrue (by rw [h]) else .isFalse (fun hh => h (Except.error.inj hh))
  | .ok _, .error _ => .isFalse (fun hh => Except.noConfusion hh)
  | .error _, .ok _ => .isFalse (fun hh => Except.noConfusion hh)

/-- Model of `fetch_all_validator_licenses`, lines 62-90: request a page with the
current cursor (`after`), starting with no cursor; append
`validator_licenses or []`; continue with `next_page_token` as the next
cursor while it is truthy.  Returns the list of cursors requested and
either the concatenated records or the error that aborted the fetch. -/
def fetchAllGo (scan : Option String → FetchResp) :
    Nat → Option String → List (Option String) × Except FetchErr (List License)
  | 0, _ => ([], .error .fuelOut)
  | fuel + 1, after =>
    match scan after with
    | .err => ([after], .error .httpError)
    | .ok page =>
      if strFalsy page.next_page_token then
        ([after], .ok (pageRecs page))
      else
        let r := fetchAllGo scan fuel page.next_page_token
        (after :: r.1, r.2.map (fun rest => pageRecs page ++ rest))

/-- Constant `ACTIVE_LOOKBACK_DAYS` (line 28). -/
def ACTIVE_LOOKBACK_DAYS : Nat := 7

/-- Value of `timedelta(days=d)` in microseconds, the resolution of Python
datetimes. -/
def timedeltaDays (d : Nat) : Int := (d : Int) * 86400000000

/-- Result of `datetime.fromisoformat(s.replace("Z", "+00:00"))` at line
110: a `ValueError` (caught at line 111 and turned into a warning), an
offset-aware datetime (comparable with the aware `cutoff`), or an
offset-naive datetime (the string carried neither `Z` nor an offset),
whose comparison with the aware `cutoff` at line 119 raises a
`TypeError` that `except ValueError` does not catch. -/
inductive ParseRes where
  | valueError
  | aware (t : Int)
  | naive (t : Int)
deriving DecidableEq

/-- Model of `filter_active_licenses`, lines 93-127: with `now` captured once and
`cutoff = now - timedelta(days=lookback_days)`, keep the records whose
truthy `payload.lastActiveAt` parses (oracle `parseTs`, modelling
`datetime.fromisoformat(s.replace("Z", "+00:00"))`) to an offset-aware
time `≥ cutoff`; skip records with a falsy timestamp or a `ValueError`.
A timestamp parsing to an offset-naive datetime raises `TypeError` at
the `last_active >= cutoff` comparison (line 119), uncaught by the
`except ValueError` handler: the whole filter call fails (`.error ()`),
discarding every record, including ones already retained. -/
def filter_active_licenses (parseTs : String → ParseRes) (now : Int)
    (lookback_days : Nat) : List License → Except Unit (List License)
  | [] => .ok []
  | lic :: rest =>
    let lastActiveAt := (payloadOf lic).lastActiveAt
    if strFalsy lastActiveAt then filter_active_licenses parseTs now lookback_days rest
    else
      match parseTs (lastActiveAt.getD "") with
      | .valueError => filter_active_licenses parseTs now lookback_days rest
      | .naive _ => .error ()
      | .aware t =>
        if now - timedeltaDays lookback_days ≤ t then
          (filter_active_licenses parseTs now lookback_days rest).map
            (fun tail => lic :: tail)
        else filter_active_licenses parseTs now lookback_days rest

/-- One step of the dedup dict build, lines 276-281: skip records with a
falsy validator id; otherwise `unique_by_validator[vid] = lic` on an
insertion-ordered dict, modelled as an association list (replace the
existing entry in place, or append a fresh key). -/
def dedupeStep (m : List (String × License)) (lic : License) : List (String × License) :=
  match truthyVid lic with
  | none => m
  | some k =>
    if m.any (fun p => p.1 = k) then
      m.map (fun p => if p.1 = k then (k, lic) else p)
    else
      m ++ [(k, lic)]

/-- Model of `list(unique_by_validator.values())`, lines 274-283: fold the active
records into the dict and take its values in insertion order. -/
def dedupe (lics : List License) : List License :=
  (lics.foldl dedupeStep []).map Prod.snd

/-- Attio's response to one PUT attempt: a network-level error
(`requests.exceptions.RequestException`), an HTTP status, or an
unexpected exception escaping the attempt. -/
inductive AttioResp where
  | netErr
  | status (code : Nat)
  | exc
deriving DecidableEq

/-- How the retry loop, lines 195-248, classifies one attempt's result:
network error → retry; 429 → retry; 5xx → retry; any other non-ok status
(`response.ok` is `status < 400` in `requests`) → permanent failure;
otherwise success.  An unexpected exception propagates out of the
function. -/
inductive AttemptClass where
  | retry
  | permFail
  | success
  | raisedExc
deriving DecidableEq

def classify : AttioResp → AttemptClass
  | .exc => .raisedExc
  | .netErr => .retry
  | .status s =>
    if s = 429 then .retry
    else if 500 ≤ s ∧ s < 600 then .retry
    else if 400 ≤ s then .permFail
    else .success

/-- Constant `max_attempts` (line 174). -/
def max_attempts : Nat := 4

/-- How one writer call ends: `sys.exit(code)` raised by
`get_attio_headers` (missing token), an unexpected exception propagating
out, or a normal `True`/`False` return. -/
inductive WOutcome where
  | exited (code : Nat)
  | raised
  | done (ok : Bool)
deriving DecidableEq

/-- Result of one writer call: the attempt numbers on which
`requests.put` was invoked, and the outcome. -/
structure WResult where
  puts : List Nat
  outcome : WOutcome
deriving DecidableEq

/-- The retry loop of `upsert_validator_into_attio`, lines 176-259.
Each iteration first evaluates `get_attio_headers()` (line 180), which
exits the process when the token is falsy; then issues the PUT and acts
on `classify`.  A retryable attempt at `attempt = max_attempts` gives up
with `False`. -/
def upsertGo (tokenOk : Bool) (respond : Nat → AttioResp) :
    Nat → Nat → WResult
  | 0, _ => ⟨[], .done false⟩
  | fuel + 1, attempt =>
    if tokenOk then
      match classify (respond attempt) with
      | .raisedExc => ⟨[attempt], .raised⟩
      | .success => ⟨[attempt], .done true⟩
      | .permFail => ⟨[attempt], .done false⟩
      | .retry =>
        if attempt = max_attempts then ⟨[attempt], .done false⟩
        else
          let r := upsertGo tokenOk respond fuel (attempt + 1)
          ⟨attempt :: r.puts, r.outcome⟩
    else ⟨[], .exited 1⟩

/-- Model of `upsert_validator_into_attio`, lines 144-259: return `False` with no
network call when the validator id is falsy (line 158), otherwise run
the retry loop starting at attempt 1. -/
def upsert_validator_into_attio (tokenOk : Bool) (respond : Nat → AttioResp)
    (lic : License) : WResult :=
  match truthyVid lic with
  | none => ⟨[], .done false⟩
  | some _ => upsertGo tokenOk respond max_attempts 1

/-- The write phase of `main`, lines 290-306, with the puts tagged by
validator id.  Results are aggregated per candidate: `True` increments
the success count, `False` the failure count, and an unexpected
exception is caught and counted as a failure without stopping the other
writes.  A `SystemExit` (missing token) is not caught by the
`except Exception` handlers and aborts the run with its code (the last
component). -/
def writePhase (tokenOk : Bool) (attio : String → Nat → AttioResp) :
    List License → List (String × Nat) × Nat × Nat × Option Nat
  | [] => ([], 0, 0, none)
  | lic :: rest =>
    match upsert_validator_into_attio tokenOk (attio ((truthyVid lic).getD "")) lic with
    | ⟨puts, .exited c⟩ =>
      (puts.map (fun a => ((truthyVid lic).getD "", a)), 0, 0, some c)
    | ⟨puts, .raised⟩ =>
      (puts.map (fun a => ((truthyVid lic).getD "", a)) ++ (writePhase tokenOk attio rest).1,
       (writePhase tokenOk attio rest).2.1,
       (writePhase tokenOk attio rest).2.2.1 + 1,
       (writePhase tokenOk attio rest).2.2.2)
    | ⟨puts, .done true⟩ =>
      (puts.map (fun a => ((truthyVid lic).getD "", a)) ++ (writePhase tokenOk attio rest).1,
       (writePhase tokenOk attio rest).2.1 + 1,
       (writePhase tokenOk attio rest).2.2.1,
       (writePhase tokenOk attio rest).2.2.2)
    | ⟨puts, .done false⟩ =>
      (puts.map (fun a => ((truthyVid lic).getD "", a)) ++ (writePhase tokenOk attio rest).1,
       (writePhase tokenOk attio rest).2.1,
       (writePhase tokenOk attio rest).2.2.1 + 1,
       (writePhase tokenOk attio rest).2.2.2)

/-- Observable outcome of one run of `main`: the source page requests
issued (cursors, in order), the destination PUTs issued (validator id
and attempt number), the final success and failure counts, and the
process exit code. -/
structure RunResult where
  sourceRequests : List (Option String)
  destPuts : List (String × Nat)
  successCount : Nat
  failCount : Nat
  exitCode : Nat
deriving DecidableEq

/-- Model of `main`, lines 264-316: fetch all licenses, filter by the
7-day window, dedupe, and run the write phase.  Any exception raised
during fetch or filter (a page error, or the filter's `TypeError`) is
caught at line 314 and turns into `sys.exit(1)` with nothing written.
`tokenOk` is the truthiness of the `ATTIO_API_TOKEN` environment
variable.  `none` models a run whose fetch loop does not terminate. -/
def mainRun (tokenOk : Bool) (scan : Option String → FetchResp)
    (attio : String → Nat → AttioResp) (parseTs : String → ParseRes)
    (now : Int) (fuel : Nat) : Option RunResult :=
  let f := fetchAllGo scan fuel none
  match f.2 with
  | .error .fuelOut => none
  | .error .httpError => some ⟨f.1, [], 0, 0, 1⟩
  | .ok licenses =>
    match filter_active_licenses parseTs now ACTIVE_LOOKBACK_DAYS licenses with
    | .error _ => some ⟨f.1, [], 0, 0, 1⟩
    | .ok active =>
      let uniq := dedupe active
      let w := writePhase tokenOk attio uniq
      match w.2.2.2 with
      | some c => some ⟨f.1, w.1, w.2.1, w.2.2.1, c⟩
      | none => some ⟨f.1, w.1, w.2.1, w.2.2.1, 0⟩

/-! ### Shared helper lemmas -/

/-- Every entry of the dedup dict maps a key to a record whose truthy
validator id is that key; `dedupeStep` preserves this. -/
theorem dedupeStep_vid (m : List (String × License)) (lic : License)
    (hm : ∀ p ∈ m, truthyVid p.2 = some p.1) :
    ∀ p ∈ dedupeStep m lic, truthyVid p.2 = some p.1 := by
  intro p hp
  unfold dedupeStep at hp
  cases hvl : truthyVid lic with
  | none => rw [hvl] at hp; exact hm p hp
  | some k =>
    simp only [hvl] at hp
    split at hp
    · obtain ⟨q, hq, hfq⟩ := List.mem_map.mp hp
      split at hfq
      · rw [← hfq]; exact hvl
      · rw [← hfq]; exact hm q hq
    · rcases List.mem_append.mp hp with h | h
      · exact hm p h
      · rcases List.mem_singleton.mp h with rfl
        exact hvl

theorem foldl_dedupeStep_vid (lics : List License) :
    ∀ m : List (String × License), (∀ p ∈ m, truthyVid p.2 = some p.1) →
    ∀ p ∈ lics.foldl dedupeStep m, truthyVid p.2 = some p.1 := by
  induction lics with
  | nil => intro m hm p hp; exact hm p hp
  | cons lic rest ih =>
    intro m hm p hp
    exact ih (dedupeStep m lic) (dedupeStep_vid m lic hm) p hp

/-- Every record surviving deduplication has a truthy validator id. -/
theorem mem_dedupe_truthy (lic : License) (lics : List License)
    (h : lic ∈ dedupe lics) : ∃ k, truthyVid lic = some k := by
  unfold dedupe at h
  obtain ⟨p, hp, hsnd⟩ := List.mem_map.mp h
  refine ⟨p.1, ?_⟩
  rw [← hsnd]
  exact foldl_dedupeStep_vid lics [] (by intro q hq; cases hq) p hp

/-! ### Concrete fixtures used by witnesses and counterexamples -/

def licA : License := ⟨some ⟨some "v1", some "2025-01-23T12:48:21Z", none, none⟩⟩

def licEmptyId : License := ⟨some ⟨some "", some "2025-01-23T12:48:21Z", none, none⟩⟩

def licNoId : License := ⟨some ⟨none, some "2025-01-23T12:48:21Z", none, none⟩⟩

/-- A parse oracle knowing the one timestamp used by the fixtures,
offset-aware thanks to its `Z` suffix; everything else raises
`ValueError`. -/
def parseFix : String → ParseRes :=
  fun s => if s = "2025-01-23T12:48:21Z" then .aware 100 else .valueError

/-! ### C6, C10: writer short-circuits on missing or empty identity -/

/-- C6: for every input record whose payload lacks the validator identity
field, the writer returns Failure (`False`) without making any network
call (no PUT issued). -/
theorem c6_missing_identity_short_circuit (tokenOk : Bool)
    (respond : Nat → AttioResp) (lic : License)
    (h : (payloadOf lic).validator = none) :
    upsert_validator_into_attio tokenOk respond lic = ⟨[], .done false⟩ := by
  unfold upsert_validator_into_attio truthyVid
  rw [h]

theorem c6_witness :
    upsert_validator_into_attio true (fun _ => .status 200) licNoId = ⟨[], .done false⟩ :=
  c6_missing_identity_short_circuit true (fun _ => .status 200) licNoId rfl

/-- C10: a record whose validator identity field is present but equal to
the empty string is treated as if the identity were missing: the
deduplicator drops it (it never appears in the dedup output), and the
writer called on it returns Failure with zero network calls. -/
theorem c10_empty_identity (lic : License) (lics : List License)
    (tokenOk : Bool) (respond : Nat → AttioResp)
    (h : (payloadOf lic).validator = some "") :
    lic ∉ dedupe lics ∧
    upsert_validator_into_attio tokenOk respond lic = ⟨[], .done false⟩ := by
  have hv : truthyVid lic = none := by
    unfold truthyVid; rw [h]; simp
  constructor
  · intro hmem
    obtain ⟨k, hk⟩ := mem_dedupe_truthy lic lics hmem
    rw [hv] at hk
    exact Option.noConfusion hk
  · unfold upsert_validator_into_attio
    rw [hv]

theorem c10_witness :
    licEmptyId ∉ dedupe [licA, licEmptyId] ∧
    upsert_validator_into_attio true (fun _ => .status 200) licEmptyId = ⟨[], .done false⟩ :=
  c10_empty_identity licEmptyId [licA, licEmptyId] true (fun _ => .status 200) rfl

/-! ### C7: retry policy of the writer -/

/-- One unfolding of the retry loop. -/
theorem upsertGo_step (tokenOk : Bool) (respond : Nat → AttioResp) (fuel attempt : Nat) :
    upsertGo tokenOk respond (fuel + 1) attempt =
      if tokenOk then
        match classify (respond attempt) with
        | .raisedExc => ⟨[attempt], .raised⟩
        | .success => ⟨[attempt], .done true⟩
        | .permFail => ⟨[attempt], .done false⟩
        | .retry =>
          if attempt = max_attempts then ⟨[attempt], .done false⟩
          else
            ⟨attempt :: (upsertGo tokenOk respond fuel (attempt + 1)).puts,
             (upsertGo tokenOk respond fuel (attempt + 1)).outcome⟩
      else ⟨[], .exited 1⟩ := rfl

/-- If attempts `attempt, …, k-1` are all retryable and attempt `k`
succeeds, the loop issues exactly the PUTs `attempt, …, k` and returns
`True`. -/
theorem upsertGo_success_path (respond : Nat → AttioResp) :
    ∀ fuel attempt k, attempt + fuel = max_attempts + 1 → attempt ≤ k →
    k ≤ max_attempts →
    (∀ i, attempt ≤ i → i < k → classify (respond i) = .retry) →
    classify (respond k) = .success →
    upsertGo true respond fuel attempt = ⟨List.range' attempt (k + 1 - attempt), .done true⟩ := by
  intro fuel
  induction fuel with
  | zero =>
    intro attempt k hsum hak hk _ _
    rw [max_attempts] at hsum hk
    omega
  | succ fuel ih =>
    intro attempt k hsum hak hk hretry hsucc
    rw [upsertGo_step, if_pos rfl]
    rcases Nat.eq_or_lt_of_le hak with rfl | hlt
    · rw [hsucc]
      have : attempt + 1 - attempt = 1 := by omega
      rw [this]
      simp [List.range']
    · rw [hretry attempt (Nat.le_refl attempt) hlt]
      have hne : ¬ attempt = max_attempts := by
        rw [max_attempts] at hk ⊢; omega
      rw [if_neg hne]
      have hrec := ih (attempt + 1) k (by omega) (by omega) hk
        (fun i h1 h2 => hretry i (by omega) h2) hsucc
      rw [hrec]
      have : k + 1 - attempt = (k + 1 - (attempt + 1)) + 1 := by omega
      rw [this, List.range'_succ]

/-- If every attempt from `attempt` through the ceiling is retryable,
the loop issues the PUTs `attempt, …, max_attempts` and gives up with
`False`. -/
theorem upsertGo_exhaust (respond : Nat → AttioResp) :
    ∀ fuel attempt, attempt + fuel = max_attempts + 1 →
    (∀ i, attempt ≤ i → i ≤ max_attempts → classify (respond i) = .retry) →
    upsertGo true respond fuel attempt =
      ⟨List.range' attempt (max_attempts + 1 - attempt), .done false⟩ := by
  intro fuel
  induction fuel with
  | zero =>
    intro attempt hsum _
    have : max_attempts + 1 - attempt = 0 := by omega
    rw [this]
    rfl
  | succ fuel ih =>
    intro attempt hsum hretry
    rw [upsertGo_step, if_pos rfl]
    have hle : attempt ≤ max_attempts := by omega
    rw [hretry attempt (Nat.le_refl attempt) hle]
    by_cases hmax : attempt = max_attempts
    · rw [if_pos hmax]
      have : max_attempts + 1 - attempt = 1 := by omega
      rw [this]
      simp [List.range', hmax]
    · rw [if_neg hmax]
      have hrec := ih (attempt + 1) (by omega)
        (fun i h1 h2 => hretry i (by omega) h2)
      rw [hrec]
      have : max_attempts + 1 - attempt = (max_attempts + 1 - (attempt + 1)) + 1 := by omega
      rw [this, List.range'_succ]

/-- C7: the writer retries retryable failures (network error, HTTP 429,
HTTP 5xx) up to a ceiling of `max_attempts = 4` total attempts.  First
part: if attempts `1, …, k-1` fail retryably and attempt `k ≤ 4`
succeeds, the writer returns Success having issued exactly the attempts
`1, …, k` (so three HTTP 500s followed by a success reports Success with
4 attempts, and a success is never retried further).  Second part: if
all 4 attempts fail retryably, the writer returns Failure after exactly
4 attempts. -/
theorem c7_retry_policy (respond : Nat → AttioResp) (lic : License)
    (v : String) (hv : truthyVid lic = some v) :
    (∀ k, 1 ≤ k → k ≤ max_attempts →
      (∀ i, 1 ≤ i → i < k → classify (respond i) = .retry) →
      classify (respond k) = .success →
      upsert_validator_into_attio true respond lic = ⟨List.range' 1 k, .done true⟩) ∧
    ((∀ i, 1 ≤ i → i ≤ max_attempts → classify (respond i) = .retry) →
      upsert_validator_into_attio true respond lic = ⟨[1, 2, 3, 4], .done false⟩) := by
  have e : upsert_validator_into_attio true respond lic = upsertGo true respond max_attempts 1 := by
    unfold upsert_validator_into_attio
    simp only [hv]
  constructor
  · intro k hk1 hk4 hretry hsucc
    rw [e, upsertGo_success_path respond max_attempts 1 k (by omega) hk1 hk4 hretry hsucc]
    have : k + 1 - 1 = k := by omega
    rw [this]
  · intro hretry
    rw [e, upsertGo_exhaust respond max_attempts 1 (by omega) hretry]
    rw [max_attempts]
    rfl

/-- The Attio oracle of the C7 witness: HTTP 500 on the first three
attempts, HTTP 200 on the fourth. -/
def attio500x3 : Nat → AttioResp :=
  fun i => if i ≤ 3 then .status 500 else .status 200

theorem c7_witness :
    upsert_validator_into_attio true attio500x3 licA = ⟨[1, 2, 3, 4], .done true⟩ := by
  have h := (c7_retry_policy attio500x3 licA "v1" rfl).1 4 (by norm_num)
    (by rw [max_attempts]) (fun i h1 h2 => by
      interval_cases i <;> decide) (by decide)
  rw [h]
  rfl

/-! ### C8: non-retryable statuses stop the writer at any attempt -/

/-- If attempts `attempt, …, k-1` are all retryable and attempt `k`
draws a permanent (non-retryable) failure, the loop issues exactly the
PUTs `attempt, …, k` and returns `False` with no further request. -/
theorem upsertGo_permfail_path (respond : Nat → AttioResp) :
    ∀ fuel attempt k, attempt + fuel = max_attempts + 1 → attempt ≤ k →
    k ≤ max_attempts →
    (∀ i, attempt ≤ i → i < k → classify (respond i) = .retry) →
    classify (respond k) = .permFail →
    upsertGo true respond fuel attempt = ⟨List.range' attempt (k + 1 - attempt), .done false⟩ := by
  intro fuel
  induction fuel with
  | zero =>
    intro attempt k hsum hak hk _ _
    rw [max_attempts] at hsum hk
    omega
  | succ fuel ih =>
    intro attempt k hsum hak hk hretry hperm
    rw [upsertGo_step, if_pos rfl]
    rcases Nat.eq_or_lt_of_le hak with rfl | hlt
    · rw [hperm]
      have : attempt + 1 - attempt = 1 := by omega
      rw [this]
      simp [List.range']
    · rw [hretry attempt (Nat.le_refl attempt) hlt]
      have hne : ¬ attempt = max_attempts := by
        rw [max_attempts] at hk ⊢; omega
      rw [if_neg hne]
      have hrec := ih (attempt + 1) k (by omega) (by omega) hk
        (fun i h1 h2 => hretry i (by omega) h2) hperm
      rw [hrec]
      have : k + 1 - attempt = (k + 1 - (attempt + 1)) + 1 := by omega
      rw [this, List.range'_succ]

/-- C8: whenever a write attempt `k ≤ 4` is answered by a non-success
status other than 429 and 5xx (for example HTTP 400), the earlier
attempts having failed retryably, the writer returns Failure
immediately: exactly the attempts `1, …, k` are issued, with zero
retries after the non-retryable status (no further HTTP request for
that record). -/
theorem c8_non_retryable_immediate_failure (respond : Nat → AttioResp)
    (lic : License) (v : String) (s k : Nat)
    (hv : truthyVid lic = some v) (hk1 : 1 ≤ k) (hk4 : k ≤ max_attempts)
    (hretry : ∀ i, 1 ≤ i → i < k → classify (respond i) = .retry)
    (hr : respond k = .status s)
    (h4 : 400 ≤ s) (h429 : s ≠ 429) (h5 : ¬ (500 ≤ s ∧ s < 600)) :
    upsert_validator_into_attio true respond lic = ⟨List.range' 1 k, .done false⟩ := by
  have hc : classify (respond k) = .permFail := by
    rw [hr]; simp only [classify]
    rw [if_neg h429, if_neg h5, if_pos h4]
  have e : upsert_validator_into_attio true respond lic =
      upsertGo true respond max_attempts 1 := by
    unfold upsert_validator_into_attio
    simp only [hv]
  rw [e, upsertGo_permfail_path respond max_attempts 1 k (by omega) hk1 hk4 hretry hc]
  have hkk : k + 1 - 1 = k := by omega
  rw [hkk]

/-- Oracle for the second conjunct of the C8 witness: a network error
on attempt 1, then HTTP 400 on attempt 2. -/
def attioNetThen400 : Nat → AttioResp :=
  fun i => if i = 1 then .netErr else .status 400

/-- The witness instantiates both the spec's scenario (HTTP 400 on the
first attempt: Failure with zero retries) and a non-retryable status at
a later attempt (network error, then HTTP 400 on attempt 2: Failure
after exactly those two attempts). -/
theorem c8_witness :
    upsert_validator_into_attio true (fun _ => .status 400) licA = ⟨[1], .done false⟩ ∧
    upsert_validator_into_attio true attioNetThen400 licA = ⟨[1, 2], .done false⟩ := by
  constructor
  · have h := c8_non_retryable_immediate_failure (fun _ => .status 400) licA "v1" 400 1
      rfl (by norm_num) (by rw [max_attempts]; norm_num) (fun i h1 h2 => by omega)
      rfl (by norm_num) (by norm_num) (by norm_num)
    rw [h]
    decide
  · have h := c8_non_retryable_immediate_failure attioNetThen400 licA "v1" 400 2
      rfl (by norm_num) (by rw [max_attempts]; norm_num)
      (fun i h1 h2 => by interval_cases i; decide)
      (by decide) (by norm_num) (by norm_num) (by norm_num)
    rw [h]
    decide

/-! ### C4: activity filter -/

/-- The retention predicate as §4.2 of the spec states it: the record
carries a timestamp, it parses (to an offset-aware datetime), and the
parsed time is at or after `now - window` (boundary inclusive). -/
def specRetained (parseTs : String → ParseRes) (now : Int)
    (lookback_days : Nat) (lic : License) : Bool :=
  match (payloadOf lic).lastActiveAt with
  | none => false
  | some s =>
    match parseTs s with
    | .aware t => now - timedeltaDays lookback_days ≤ t
    | _ => false

/-- More fixtures. -/
def licNoTs : License := ⟨some ⟨some "v2", none, none, none⟩⟩

def licBadTs : License := ⟨some ⟨some "v3", some "not-a-timestamp", none, none⟩⟩

/-- C4 (amended): provided every timestamp in play parses either to an
offset-aware datetime or to a `ValueError` (no offset-naive parses),
the activity filter succeeds, and — with `now` captured once for the
whole invocation — keeps exactly the records whose timestamp is
present, parses, and is `≥ now - window` (inclusive at the boundary),
preserving input order; records with a missing or
`ValueError`-unparseable timestamp are dropped and the filter still
returns normally.  The hypothesis `parseTs "" = .valueError` records
that `datetime.fromisoformat` rejects the empty string, so the code's
truthiness shortcut on the timestamp agrees with "parseable".  Without
the no-naive hypothesis the statement is false: see the
counterexample, where a parseable offset-naive timestamp aborts the
whole run instead of being retained. -/
theorem c4_filter_aware_retains_iff (parseTs : String → ParseRes) (now : Int)
    (lookback_days : Nat) (hempty : parseTs "" = .valueError)
    (hnonaive : ∀ s t, parseTs s ≠ .naive t) (lics : List License) :
    filter_active_licenses parseTs now lookback_days lics =
      .ok (lics.filter (specRetained parseTs now lookback_days)) := by
  induction lics with
  | nil => rfl
  | cons lic rest ih =>
    unfold filter_active_licenses
    rw [List.filter_cons]
    cases hla : (payloadOf lic).lastActiveAt with
    | none => simp [strFalsy, hla, specRetained, ih]
    | some s =>
      by_cases hs : s = ""
      · subst hs
        simp [strFalsy, hla, specRetained, hempty, ih]
      · cases hp : parseTs s with
        | valueError => simp [strFalsy, hla, hs, specRetained, hp, ih]
        | naive t => exact absurd hp (hnonaive s t)
        | aware t =>
          by_cases hcut : now - timedeltaDays lookback_days ≤ t
          · simp [strFalsy, hla, hs, specRetained, hp, hcut, ih, Except.map]
          · simp [strFalsy, hla, hs, specRetained, hp, hcut, ih]

/-- The witness exercises the inclusive boundary: `now` is chosen so
that the cutoff is exactly the fixture's parsed timestamp, and the
record is retained, while a missing and an unparseable timestamp are
dropped without failing. -/
theorem c4_witness :
    filter_active_licenses parseFix 604800000100 7 [licA, licNoTs, licBadTs] =
      .ok (List.filter (specRetained parseFix 604800000100 7) [licA, licNoTs, licBadTs]) ∧
    filter_active_licenses parseFix 604800000100 7 [licA, licNoTs, licBadTs] = .ok [licA] :=
  ⟨c4_filter_aware_retains_iff parseFix 604800000100 7 (by decide)
      (fun s t => by unfold parseFix; split <;> simp) [licA, licNoTs, licBadTs],
   by decide⟩

/-- A record whose timestamp carries neither `Z` nor an offset: it
parses, but to an offset-naive datetime. -/
def licNaiveTs : License := ⟨some ⟨some "v4", some "2025-01-23T12:48:21", none, none⟩⟩

/-- A parse oracle with an offset-naive parse: the `Z`-suffixed fixture
timestamp is aware, the same instant written without `Z` is naive, and
everything else raises `ValueError` — exactly how
`datetime.fromisoformat` treats these strings. -/
def parseFixNaive : String → ParseRes := fun s =>
  if s = "2025-01-23T12:48:21Z" then .aware 100
  else if s = "2025-01-23T12:48:21" then .naive 100
  else .valueError

/-- C4 counterexample: `licNaiveTs` carries a parseable recency
timestamp whose parsed time (100) is at the window cutoff, so the claim
says the filter retains it; instead the code raises `TypeError` at the
naive-vs-aware cutoff comparison and the whole filter call fails —
the record is neither retained nor merely dropped. -/
theorem c4_counterexample :
    filter_active_licenses parseFixNaive 100 7 [licNaiveTs] = .error () ∧
    filter_active_licenses parseFixNaive 100 7 [licNaiveTs] ≠ .ok [licNaiveTs] :=
  ⟨by decide, by decide⟩

/-! ### C5: deduplication is last-write-wins -/

/-- Replacing the value at key `k` does not change the keys. -/
theorem dedupeStep_keys (m : List (String × License)) (lic : License) (k : String) :
    (m.map (fun p => if p.1 = k then (k, lic) else p)).map Prod.fst = m.map Prod.fst := by
  rw [List.map_map]
  apply List.map_congr_left
  intro p _
  by_cases h : p.1 = k
  · simp [h]
  · simp [h]

/-- Step function `dedupeStep` keeps the dict keys duplicate-free. -/
theorem dedupeStep_keys_nodup (m : List (String × License)) (lic : License)
    (hm : (m.map Prod.fst).Nodup) : ((dedupeStep m lic).map Prod.fst).Nodup := by
  unfold dedupeStep
  cases hvl : truthyVid lic with
  | none => exact hm
  | some k =>
    simp only
    split
    · rw [dedupeStep_keys m lic k]
      exact hm
    · rename_i hany
      rw [List.map_append]
      apply List.Nodup.append hm (List.nodup_singleton k)
      intro x hx hxk
      rw [List.mem_singleton] at hxk
      subst hxk
      obtain ⟨p, hp, hpk⟩ := List.mem_map.mp hx
      exact hany (List.any_eq_true.mpr ⟨p, hp, by simp [hpk]⟩)

/-- In a dict with duplicate-free keys, the entries at a present key `k`
form exactly one singleton. -/
theorem nodup_filter_key (k : String) :
    ∀ m : List (String × License), (m.map Prod.fst).Nodup →
    m.any (fun p => p.1 = k) = true →
    ∃ v, m.filter (fun p => p.1 = k) = [(k, v)] := by
  intro m
  induction m with
  | nil => intro _ h; simp at h
  | cons p rest ih =>
    intro hnd hany
    rw [List.map_cons, List.nodup_cons] at hnd
    by_cases hpk : p.1 = k
    · refine ⟨p.2, ?_⟩
      rw [List.filter_cons, if_pos (by simp [hpk])]
      have hrest : rest.filter (fun q => q.1 = k) = [] := by
        apply List.filter_eq_nil_iff.mpr
        intro q hq hqk
        apply hnd.1
        rw [hpk]
        simp only [decide_eq_true_eq] at hqk
        rw [← hqk]
        exact List.mem_map.mpr ⟨q, hq, rfl⟩
      rw [hrest]
      have : (p.1, p.2) = p := rfl
      rw [← this, hpk]
    · rw [List.filter_cons, if_neg (by simp [hpk])]
      apply ih hnd.2
      rcases List.any_eq_true.mp hany with ⟨q, hq, hqk⟩
      rcases List.mem_cons.mp hq with rfl | hq'
      · simp [hpk] at hqk
      · exact List.any_eq_true.mpr ⟨q, hq', hqk⟩

/-- After a `dedupeStep` with a record keyed `k`, the dict's entries at
`k` are exactly the singleton of that record. -/
theorem dedupeStep_filter_self (m : List (String × License)) (lic : License)
    (k : String) (hk : truthyVid lic = some k) (hnd : (m.map Prod.fst).Nodup) :
    (dedupeStep m lic).filter (fun p => p.1 = k) = [(k, lic)] := by
  unfold dedupeStep
  simp only [hk]
  split
  · rename_i hany
    rw [List.filter_map]
    have hfun : ((fun p => decide (p.1 = k)) ∘
        fun p : String × License => if p.1 = k then (k, lic) else p) =
          (fun p => decide (p.1 = k)) := by
      funext q
      by_cases h : q.1 = k
      · simp [h]
      · simp [h]
    rw [hfun]
    obtain ⟨v, hv⟩ := nodup_filter_key k m hnd hany
    rw [hv]
    simp
  · rename_i hany
    rw [List.filter_append]
    have h1 : m.filter (fun p => p.1 = k) = [] := by
      apply List.filter_eq_nil_iff.mpr
      intro q hq hqk
      simp only [decide_eq_true_eq] at hqk
      exact hany (List.any_eq_true.mpr ⟨q, hq, by simp [hqk]⟩)
    rw [h1]
    simp

/-- A `dedupeStep` with a record not keyed `k` leaves the entries at `k`
unchanged. -/
theorem dedupeStep_filter_other (m : List (String × License)) (lic : License)
    (k : String) (hk : truthyVid lic ≠ some k) :
    (dedupeStep m lic).filter (fun p => p.1 = k) = m.filter (fun p => p.1 = k) := by
  unfold dedupeStep
  cases hvl : truthyVid lic with
  | none => rfl
  | some j =>
    have hjk : j ≠ k := by intro h; exact hk (by rw [hvl, h])
    simp only
    split
    · rw [List.filter_map]
      have hfun : ((fun p => decide (p.1 = k)) ∘
          fun p : String × License => if p.1 = j then (j, lic) else p) =
            (fun p => decide (p.1 = k)) := by
        funext q
        by_cases h : q.1 = j
        · simp [h, hjk, Ne.symm hjk]
        · simp [h]
      rw [hfun]
      have hid : List.map (fun p : String × License => if p.1 = j then (j, lic) else p)
          (List.filter (fun p => decide (p.1 = k)) m) =
            List.map id (List.filter (fun p => decide (p.1 = k)) m) := by
        apply List.map_congr_left
        intro q hq
        rw [List.mem_filter] at hq
        have hqj : q.1 ≠ j := by
          intro h
          rw [h] at hq
          exact hjk (by simpa using hq.2)
        simp [hqj]
      rw [hid, List.map_id]
    · rw [List.filter_append]
      simp [hjk]

theorem getLast?_cons_ne_nil {α : Type} (a : α) (l : List α) (hl : l ≠ []) :
    (a :: l).getLast? = l.getLast? := by
  cases l with
  | nil => exact absurd rfl hl
  | cons b t => rfl

/-- Folding records into the dedup dict leaves, at each key `k`, exactly
the entry of the last input record keyed `k` (or the starting dict's
entry when no input record has that key). -/
theorem foldl_dedupeStep_filter (k : String) :
    ∀ (lics : List License) (m : List (String × License)),
    (m.map Prod.fst).Nodup →
    (lics.foldl dedupeStep m).filter (fun p => p.1 = k) =
      (match (lics.filter (fun l => truthyVid l = some k)).getLast? with
       | some l => [(k, l)]
       | none => m.filter (fun p => p.1 = k)) := by
  intro lics
  induction lics with
  | nil => intro m _; rfl
  | cons lic rest ih =>
    intro m hm
    rw [List.foldl_cons]
    have hnd' := dedupeStep_keys_nodup m lic hm
    rw [ih (dedupeStep m lic) hnd']
    by_cases hvk : truthyVid lic = some k
    · rw [List.filter_cons, if_pos (by simp [hvk])]
      cases hrest : (rest.filter (fun l => truthyVid l = some k)).getLast? with
      | some l =>
        have hne : rest.filter (fun l => truthyVid l = some k) ≠ [] := by
          intro h
          rw [h] at hrest
          simp at hrest
        rw [getLast?_cons_ne_nil lic _ hne, hrest]
      | none =>
        have hnil : rest.filter (fun l => truthyVid l = some k) = [] := by
          cases hc : rest.filter (fun l => truthyVid l = some k) with
          | nil => rfl
          | cons b t =>
            rw [hc] at hrest
            simp [List.getLast?] at hrest
        rw [hnil]
        simp only [List.getLast?_singleton]
        exact dedupeStep_filter_self m lic k hvk hm
    · rw [List.filter_cons, if_neg (by simp [hvk])]
      rw [dedupeStep_filter_other m lic k hvk]

/-- At each key, deduplication keeps exactly the last input record with
that key. -/
theorem dedupe_filter_key (lics : List License) (k : String) :
    (dedupe lics).filter (fun l => truthyVid l = some k) =
      (lics.filter (fun l => truthyVid l = some k)).getLast?.toList := by
  unfold dedupe
  rw [List.filter_map]
  have hcond : ∀ q ∈ lics.foldl dedupeStep [],
      ((fun l => decide (truthyVid l = some k)) ∘ Prod.snd) q =
        (fun p => decide (p.1 = k)) q := by
    intro q hq
    have hvq := foldl_dedupeStep_vid lics [] (by intro p hp; cases hp) q hq
    simp only [Function.comp_apply, hvq]
    by_cases h : q.1 = k
    · simp [h]
    · simp [h, fun hh : some q.1 = some k => h (Option.some.inj hh)]
  rw [List.filter_congr hcond]
  rw [foldl_dedupeStep_filter k lics [] List.nodup_nil]
  cases hg : (lics.filter (fun l => truthyVid l = some k)).getLast? with
  | some l => rfl
  | none => rfl

/-- C5: whenever two or more input records share the same (truthy)
identity key, deduplication retains exactly one record with that key,
and it is the record appearing latest in input order. -/
theorem c5_dedupe_last_write_wins (lics : List License) (k : String)
    (h2 : 2 ≤ (lics.filter (fun l => truthyVid l = some k)).length) :
    (dedupe lics).filter (fun l => truthyVid l = some k) =
      (lics.filter (fun l => truthyVid l = some k)).getLast?.toList ∧
    ((dedupe lics).filter (fun l => truthyVid l = some k)).length = 1 := by
  refine ⟨dedupe_filter_key lics k, ?_⟩
  rw [dedupe_filter_key lics k]
  have hne : lics.filter (fun l => truthyVid l = some k) ≠ [] := by
    intro h
    rw [h] at h2
    simp at h2
  cases hg : (lics.filter (fun l => truthyVid l = some k)).getLast? with
  | some l => rfl
  | none =>
    rw [List.getLast?_eq_none_iff] at hg
    exact absurd hg hne

/-- Second record with key "v1", with a different sponsor. -/
def licA2 : License := ⟨some ⟨some "v1", some "2025-01-23T12:48:21Z", some "sponsor2", none⟩⟩

theorem c5_witness :
    ((dedupe [licA, licNoTs, licA2]).filter (fun l => truthyVid l = some "v1") =
      ([licA, licNoTs, licA2].filter (fun l => truthyVid l = some "v1")).getLast?.toList ∧
     ((dedupe [licA, licNoTs, licA2]).filter (fun l => truthyVid l = some "v1")).length = 1) ∧
    (dedupe [licA, licNoTs, licA2]).filter (fun l => truthyVid l = some "v1") = [licA2] :=
  ⟨c5_dedupe_last_write_wins [licA, licNoTs, licA2] "v1" (by decide), by decide⟩

/-! ### C2, C3: pagination -/

/-- One unfolding of the fetch loop. -/
theorem fetchAllGo_step (scan : Option String → FetchResp) (fuel : Nat)
    (after : Option String) :
    fetchAllGo scan (fuel + 1) after =
      match scan after with
      | .err => ([after], .error .httpError)
      | .ok page =>
        if strFalsy page.next_page_token then ([after], .ok (pageRecs page))
        else
          (after :: (fetchAllGo scan fuel page.next_page_token).1,
           (fetchAllGo scan fuel page.next_page_token).2.map
             (fun rest => pageRecs page ++ rest)) := rfl

/-- A terminating response chain of the Canton server: starting from
cursor `c`, every request succeeds, each page's truthy continuation
token is the next request's cursor, and exactly the final page's token
is absent or empty (Python-falsy, matching `if not after`). -/
inductive Chain (scan : Option String → FetchResp) : Option String → List Page → Prop
  | last (c : Option String) (p : Page) (hok : scan c = .ok p)
      (hstop : strFalsy p.next_page_token = true) : Chain scan c [p]
  | step (c : Option String) (p : Page) (ps : List Page) (hok : scan c = .ok p)
      (hgo : strFalsy p.next_page_token = false)
      (hch : Chain scan p.next_page_token ps) : Chain scan c (p :: ps)

theorem Chain.ne_nil {scan : Option String → FetchResp} {c : Option String}
    {ps : List Page} (h : Chain scan c ps) : ps ≠ [] := by
  cases h <;> simp

/-- The fetch loop, run from any cursor along a terminating chain with
enough fuel, issues exactly one request per page of the chain — the
first at the given cursor, each later one at the previous page's
continuation token — and returns the concatenation of the page record
lists in request order. -/
theorem fetchAllGo_chain (scan : Option String → FetchResp) {c : Option String}
    {ps : List Page} (h : Chain scan c ps) :
    ∀ fuel, ps.length ≤ fuel →
    fetchAllGo scan fuel c =
      (c :: ps.dropLast.map (fun p => p.next_page_token),
       .ok (ps.map pageRecs).flatten) := by
  induction h with
  | last c p hok hstop =>
    intro fuel hfuel
    obtain ⟨fuel, rfl⟩ : ∃ f, fuel = f + 1 :=
      ⟨fuel - 1, by have h1 := hfuel; simp at h1; omega⟩
    rw [fetchAllGo_step]
    simp only [hok]
    rw [if_pos hstop]
    simp
  | step c p ps hok hgo hch ih =>
    intro fuel hfuel
    obtain ⟨fuel, rfl⟩ : ∃ f, fuel = f + 1 :=
      ⟨fuel - 1, by have h1 := hfuel; simp at h1; omega⟩
    rw [fetchAllGo_step]
    simp only [hok]
    rw [if_neg (by rw [hgo]; exact Bool.false_ne_true)]
    rw [ih fuel (by simpa using Nat.le_of_succ_le_succ hfuel)]
    obtain ⟨q, ps', rfl⟩ := List.exists_cons_of_ne_nil hch.ne_nil
    simp [Except.map, List.flatten]

/-- C2: for every paginated fetch sequence (a terminating response
chain from the no-cursor start) and enough fuel, `fetch_all` returns
the concatenation of the record lists of all pages in request order,
the requests it issues are the no-cursor request followed by each
earlier page's continuation token, and it stops exactly at the first
page that supplies no (truthy) continuation token — one request per
page of the chain. -/
theorem c2_fetch_all_pagination (scan : Option String → FetchResp)
    (ps : List Page) (fuel : Nat) (h : Chain scan none ps)
    (hfuel : ps.length ≤ fuel) :
    fetchAllGo scan fuel none =
      (none :: ps.dropLast.map (fun p => p.next_page_token),
       .ok (ps.map pageRecs).flatten) :=
  fetchAllGo_chain scan h fuel hfuel

/-- A two-page Canton server used by witnesses. -/
def pageOne : Page := ⟨some [licA, licNoId], some "p2"⟩

def pageTwo : Page := ⟨some [licA2], none⟩

def scanTwoPages : Option String → FetchResp := fun c =>
  match c with
  | none => .ok pageOne
  | some "p2" => .ok pageTwo
  | _ => .err

theorem c2_witness :
    fetchAllGo scanTwoPages 5 none = ([none, some "p2"], .ok [licA, licNoId, licA2]) := by
  have h := c2_fetch_all_pagination scanTwoPages [pageOne, pageTwo] 5
    (Chain.step none pageOne [pageTwo] (by decide) (by decide)
      (Chain.last (some "p2") pageTwo (by decide) (by decide)))
    (by decide)
  rw [h]
  decide

/-- If any request the fetch loop issued was answered by a non-success
status or malformed body, the fetch as a whole errors. -/
theorem fetchAllGo_err_of_mem (scan : Option String → FetchResp) :
    ∀ fuel c0 c, c ∈ (fetchAllGo scan fuel c0).1 → scan c = .err →
      (fetchAllGo scan fuel c0).2 = .error .httpError := by
  intro fuel
  induction fuel with
  | zero =>
    intro c0 c hc _
    simp [fetchAllGo] at hc
  | succ fuel ih =>
    intro c0 c hc herr
    rw [fetchAllGo_step] at hc ⊢
    cases hok : scan c0 with
    | err => simp [hok]
    | ok page =>
      simp only [hok] at hc ⊢
      by_cases hstop : strFalsy page.next_page_token = true
      · rw [if_pos hstop] at hc ⊢
        simp at hc
        subst hc
        rw [herr] at hok
        exact FetchResp.noConfusion hok
      · rw [if_neg hstop] at hc ⊢
        simp at hc
        rcases hc with rfl | hc
        · rw [herr] at hok
          exact FetchResp.noConfusion hok
        · have h2 := ih page.next_page_token c hc herr
          simp [h2, Except.map]

/-- C3: if any page request during the fetch phase is answered by a
non-success status or malformed body, the fetch errors (first
conjunct), and an errored fetch makes the whole run abort with exit
code 1, no destination write issued, and no partial result counted
(second conjunct). -/
theorem c3_fetch_error_fatal (scan : Option String → FetchResp) :
    (∀ fuel c, c ∈ (fetchAllGo scan fuel none).1 → scan c = .err →
      (fetchAllGo scan fuel none).2 = .error .httpError) ∧
    (∀ fuel tokenOk (attio : String → Nat → AttioResp)
        (parseTs : String → ParseRes) (now : Int) (reqs : List (Option String)),
      fetchAllGo scan fuel none = (reqs, .error .httpError) →
      mainRun tokenOk scan attio parseTs now fuel = some ⟨reqs, [], 0, 0, 1⟩) := by
  constructor
  · intro fuel c hc herr
    exact fetchAllGo_err_of_mem scan fuel none c hc herr
  · intro fuel tokenOk attio parseTs now reqs h
    simp [mainRun, h]

/-- A server whose second page request fails. -/
def scanSecondFails : Option String → FetchResp := fun c =>
  match c with
  | none => .ok pageOne
  | _ => .err

theorem c3_witness :
    (fetchAllGo scanSecondFails 5 none).2 = .error .httpError ∧
    mainRun true scanSecondFails (fun _ _ => .status 200) parseFix 100 5 =
      some ⟨[none, some "p2"], [], 0, 0, 1⟩ :=
  ⟨(c3_fetch_error_fatal scanSecondFails).1 5 (some "p2") (by decide) (by decide),
   (c3_fetch_error_fatal scanSecondFails).2 5 true (fun _ _ => .status 200) parseFix 100
     [none, some "p2"] (by decide)⟩

/-! ### C9: success/failure counts partition the candidates -/

/-- With the token present, the retry loop never raises `SystemExit`: it
either propagates an unexpected exception or returns a boolean. -/
theorem upsertGo_no_exit (respond : Nat → AttioResp) :
    ∀ fuel attempt, (upsertGo true respond fuel attempt).outcome = .raised ∨
      ∃ b, (upsertGo true respond fuel attempt).outcome = .done b := by
  intro fuel
  induction fuel with
  | zero => intro attempt; exact Or.inr ⟨false, rfl⟩
  | succ fuel ih =>
    intro attempt
    rw [upsertGo_step, if_pos rfl]
    cases hc : classify (respond attempt) with
    | raisedExc => exact Or.inl rfl
    | success => exact Or.inr ⟨true, rfl⟩
    | permFail => exact Or.inr ⟨false, rfl⟩
    | retry =>
      by_cases hmax : attempt = max_attempts
      · rw [if_pos hmax]
        exact Or.inr ⟨false, rfl⟩
      · rw [if_neg hmax]
        exact ih (attempt + 1)

/-- With the token present, a writer call either raises an unexpected
exception or returns a boolean — never `SystemExit`. -/
theorem upsert_no_exit (respond : Nat → AttioResp) (lic : License) :
    (upsert_validator_into_attio true respond lic).outcome = .raised ∨
    ∃ b, (upsert_validator_into_attio true respond lic).outcome = .done b := by
  unfold upsert_validator_into_attio
  cases truthyVid lic with
  | none => exact Or.inr ⟨false, rfl⟩
  | some v => exact upsertGo_no_exit respond max_attempts 1

/-- With the token present the write phase finishes (no `SystemExit`)
and counts every candidate exactly once: successes plus failures equal
the number of candidates. -/
theorem writePhase_counts (attio : String → Nat → AttioResp) :
    ∀ lics : List License,
      (writePhase true attio lics).2.2.2 = none ∧
      (writePhase true attio lics).2.1 + (writePhase true attio lics).2.2.1 = lics.length := by
  intro lics
  induction lics with
  | nil => exact ⟨rfl, rfl⟩
  | cons lic rest ih =>
    have hne := upsert_no_exit (attio ((truthyVid lic).getD "")) lic
    unfold writePhase
    split
    · rename_i puts c heq
      rw [heq] at hne
      simp at hne
    · simp only [List.length_cons]
      exact ⟨ih.1, by have := ih.2; omega⟩
    · simp only [List.length_cons]
      exact ⟨ih.1, by have := ih.2; omega⟩
    · simp only [List.length_cons]
      exact ⟨ih.1, by have := ih.2; omega⟩

/-- C9: for every run that reaches and completes the write phase — the
fetch succeeds, the activity filter succeeds (no `TypeError` abort),
and the token is present — each deduplicated candidate is counted
exactly once as a success or a failure — an unexpected error in one
write is caught, counted as a failure, and does not abort sibling
writes — so the reported success count plus failure count equals the
number of deduplicated candidates, and the process exits 0. -/
theorem c9_counts_partition (scan : Option String → FetchResp)
    (attio : String → Nat → AttioResp) (parseTs : String → ParseRes)
    (now : Int) (fuel : Nat) (reqs : List (Option String))
    (lics active : List License)
    (hfetch : fetchAllGo scan fuel none = (reqs, .ok lics))
    (hfilter : filter_active_licenses parseTs now ACTIVE_LOOKBACK_DAYS lics = .ok active) :
    (mainRun true scan attio parseTs now fuel).map
        (fun r => (r.successCount + r.failCount, r.exitCode)) =
      some ((dedupe active).length, 0) := by
  have hw := writePhase_counts attio (dedupe active)
  simp [mainRun, hfetch, hfilter, hw.1, hw.2]

/-- A record for validator "v9", whose writes will raise an unexpected
exception in the C9 witness. -/
def licB : License := ⟨some ⟨some "v9", some "2025-01-23T12:48:21Z", none, none⟩⟩

def scanForC9 : Option String → FetchResp := fun c =>
  match c with
  | none => .ok ⟨some [licA, licB, licA2], none⟩
  | _ => .err

/-- Attio oracle for the C9 witness: writes for "v1" succeed, writes for
"v9" raise an unexpected exception. -/
def attioForC9 : String → Nat → AttioResp := fun v _ =>
  if v = "v9" then .exc else .status 200

theorem c9_witness :
    (mainRun true scanForC9 attioForC9 parseFix 100 5).map
        (fun r => (r.successCount + r.failCount, r.exitCode)) = some (2, 0) ∧
    mainRun true scanForC9 attioForC9 parseFix 100 5 =
      some ⟨[none], [("v1", 1), ("v9", 1)], 1, 1, 0⟩ := by
  constructor
  · have h := c9_counts_partition scanForC9 attioForC9 parseFix 100 5 [none]
      [licA, licB, licA2] [licA, licB, licA2] (by decide) (by decide)
    rw [h]
    decide
  · decide

/-! ### C1: missing destination token -/

/-- C1 (amended): when the destination token variable is unset (falsy),
a run whose fetch and filter succeed and that has at least one write
candidate aborts with exit code 1 and issues no destination write — but
the source page fetches have already been issued (`reqs` is the full
request list of the fetch phase), because the token is only read inside
the writer, not at startup. -/
theorem c1_missing_token_no_dest_write (scan : Option String → FetchResp)
    (attio : String → Nat → AttioResp) (parseTs : String → ParseRes)
    (now : Int) (fuel : Nat) (reqs : List (Option String))
    (lics active : List License)
    (hfetch : fetchAllGo scan fuel none = (reqs, .ok lics))
    (hfilter : filter_active_licenses parseTs now ACTIVE_LOOKBACK_DAYS lics = .ok active)
    (hcand : dedupe active ≠ []) :
    mainRun false scan attio parseTs now fuel = some ⟨reqs, [], 0, 0, 1⟩ := by
  obtain ⟨lic, rest, hu⟩ := List.exists_cons_of_ne_nil hcand
  obtain ⟨k, hk⟩ := mem_dedupe_truthy lic _ (by rw [hu]; exact List.mem_cons_self lic rest)
  have hup : upsert_validator_into_attio false (attio ((truthyVid lic).getD "")) lic
      = ⟨[], .exited 1⟩ := by
    unfold upsert_validator_into_attio
    simp only [hk]
    show upsertGo false (attio ((truthyVid lic).getD "")) (3 + 1) 1 = _
    rw [upsertGo_step]
    simp
  have hwp : writePhase false attio (lic :: rest) = ([], 0, 0, some 1) := by
    unfold writePhase
    rw [hup]
    rfl
  simp [mainRun, hfetch, hfilter, hu, hwp]

/-- A one-page server: the single page holds one active record and no
continuation token. -/
def scanOnePage : Option String → FetchResp := fun _ => .ok ⟨some [licA], none⟩

theorem c1_witness :
    mainRun false scanOnePage (fun _ _ => .status 200) parseFix 100 3 =
      some ⟨[none], [], 0, 0, 1⟩ :=
  c1_missing_token_no_dest_write scanOnePage (fun _ _ => .status 200) parseFix 100 3
    [none] [licA] [licA] (by decide) (by decide) (by decide)

/-- C1 counterexample: with the token variable unset, a concrete run
does exit fatally (code 1) before any destination write, but a source
page request has been issued — its request list is `[none]`, not `[]` —
so the claim that the process exits before any network call is made is
false of the code. -/
theorem c1_counterexample :
    mainRun false scanOnePage (fun _ _ => .status 200) parseFix 100 3 =
      some ⟨[none], [], 0, 0, 1⟩ ∧
    ¬ (mainRun false scanOnePage (fun _ _ => .status 200) parseFix 100 3).map
        RunResult.sourceRequests = some [] := by
  exact ⟨by decide, by decide⟩
